import Mathlib

/-!
Verification of the GraphQL-Explorer autocomplete core.

This file gives a shallow embedding of the schema model and the context
resolver implemented in `client/src/components/monaco-editor.tsx`
(`getTypeString`, `findTypeByName`, `getContextType`, `getSuggestions`),
the type renderer in `client/src/pages/graphql-client.tsx` (`renderType`),
and the schema-installation decision of `fetchSchema` in the same file.

Modelling conventions:
* JavaScript strings are embedded as `List Char`; the cursor offset is a
  code-point index (all inputs of interest are ASCII, where UTF-16 code
  units and code points coincide).
* A thrown TypeError (dereferencing `ofType!` when it is absent) is
  modelled by `Except Unit`, with `.error ()` standing for the throw.
* The single TypeScript interface `GraphQLType` is embedded as two types
  mirroring the introspection payload this program fetches: `TypeRef`
  (the `kind`/`name`/`ofType` fragment used for field types) and
  `GraphQLType` (a definition-level entry carrying `fields`).  The
  introspection query in `graphql-client.tsx` selects exactly these
  shapes.  `ofType` present/absent is encoded by the two `TypeRef`
  constructors; `TypeRef.ofType` recovers the optional field.
* `String.prototype.localeCompare` is modelled by code-point
  lexicographic comparison, which agrees with it on the lower-case ASCII
  identifiers that appear in field names.
* Argument entries (`GraphQLInputField`) carry only the parts the
  resolver ever reads; their `type` is never dereferenced by the code
  under study, so it is omitted from the record.
-/

namespace GQL

/-- The `{` character (the GraphQL selection-set opener). -/
def openBrace : Char := '\x7b'

/-- The `}` character. -/
def closeBrace : Char := '\x7d'

/-- JavaScript `\w` character class: `[A-Za-z0-9_]`. -/
def isWordChar (c : Char) : Bool := c.isAlphanum || c = '_'

/-- Whitespace, for the regex `\s` class and `String.prototype.trim`. -/
def isSpaceChar (c : Char) : Bool := c.isWhitespace

/-- Lower-case a character sequence (models `toLowerCase` on ASCII). -/
def lower (l : List Char) : List Char := l.map Char.toLower

/-- Lower-case a string (models `toLowerCase` on ASCII). -/
def lowerStr (s : String) : String := ⟨lower s.data⟩

/-- Number of occurrences of `c`, modelling `(s.match(/c/g) || []).length`. -/
def countChar (c : Char) (l : List Char) : Nat := l.count c

/-- Split on a separator character, modelling `String.prototype.split`:
`splitOnChar c []` is `[[]]`, matching `"".split(c) == [""]`. -/
def splitOnChar (c : Char) : List Char → List (List Char)
  | [] => [[]]
  | a :: l =>
    if a = c then [] :: splitOnChar c l
    else
      match splitOnChar c l with
      | [] => [[a]]
      | h :: t => (a :: h) :: t

/-- The text after the last `}`, modelling
`content.substring(content.lastIndexOf(closeBrace) + 1)` (the whole string when
no `}` occurs). -/
def afterLastClose (l : List Char) : List Char :=
  (splitOnChar closeBrace l).getLastD l

/-- The current line: the text after the last newline, modelling
`beforeCursor.split(newline).pop()`. -/
def lastLine (l : List Char) : List Char :=
  (splitOnChar '\n' l).getLastD l

/-- Trailing run of word characters, the group captured by the regex
`\s*(\w*)$` at its leftmost match. -/
def trailingWordRun (l : List Char) : List Char :=
  (l.reverse.takeWhile isWordChar).reverse

/-- Strip whitespace from both ends, modelling `String.prototype.trim`. -/
def trimChars (l : List Char) : List Char :=
  ((l.dropWhile isSpaceChar).reverse.dropWhile isSpaceChar).reverse

/-- Helper for `argsSkip`: given the text right after whitespace, consume
`\([^)]*\)` when it is present and closed. -/
def argsAfterSpace (a : Char) (rest : List Char) : Option (List Char) :=
  if a = '(' then
    match rest.dropWhile (fun c => !(c = ')')) with
    | [] => none
    | b :: r => if b = ')' then some r else none
  else none

/-- Attempt to consume an argument list `\s*\([^)]*\)` at the front of `l`.
Returns the remainder after the closing parenthesis, or `none` when the
pattern does not match (in particular for an unclosed parenthesis). -/
def argsSkip (l : List Char) : Option (List Char) :=
  match l.dropWhile isSpaceChar with
  | [] => none
  | a :: rest => argsAfterSpace a rest

/-- Fuel-driven scanner for the global regex `(\w+)(?:\s*\([^)]*\))?`:
skip to the next word character, emit the maximal word run, then consume a
closed argument list when one follows.  Each step consumes at least one
character, so `fuel = l.length` always suffices (`tokensGo_fuel` below
proves the result is fuel-independent from that point on). -/
def tokensGo : Nat → List Char → List String
  | 0, _ => []
  | fuel + 1, l =>
    match l.dropWhile (fun c => !isWordChar c) with
    | [] => []
    | c :: rest =>
      let w := (c :: rest).takeWhile isWordChar
      let r1 := (c :: rest).dropWhile isWordChar
      match argsSkip r1 with
      | some r2 => ⟨w⟩ :: tokensGo fuel r2
      | none => ⟨w⟩ :: tokensGo fuel r1

/-- The field tokens extracted by the global regex
`(\w+)(?:\s*\([^)]*\))?` — each token's word part, since the caller strips
the argument part with `.replace(/\s*\([^)]*\)/, '')` before use. -/
def tokens (l : List Char) : List String := tokensGo l.length l

/-- Code-point lexicographic comparison (`a <= b`), modelling
`a.localeCompare(b) <= 0` on the ASCII identifiers involved. -/
def strLE : List Char → List Char → Bool
  | [], _ => true
  | _ :: _, [] => false
  | a :: as, b :: bs => if a = b then strLE as bs else decide (a < b)

/-- Substring containment, modelling `String.prototype.includes`:
`containsSeq needle hay` is `true` iff `needle` occurs contiguously in
`hay`. -/
def containsSeq (needle : List Char) : List Char → Bool
  | [] => needle.isEmpty
  | c :: rest => needle.isPrefixOf (c :: rest) || containsSeq needle rest

/-- A GraphQL type reference as returned by the `TypeRef` introspection
fragment: `kind`, `name` and an optional `ofType`.  `base` is a reference
without `ofType`; `node` carries the inner reference.  A `null` name is
represented by the empty string (it is only ever used through JavaScript
truthiness checks and `||` fallbacks). -/
inductive TypeRef : Type where
  | base (kind : String) (name : String)
  | node (kind : String) (name : String) (inner : TypeRef)
deriving DecidableEq

/-- The `kind` property of a type reference. -/
def TypeRef.kind : TypeRef → String
  | .base k _ => k
  | .node k _ _ => k

/-- The `name` property of a type reference (empty string for `null`). -/
def TypeRef.name : TypeRef → String
  | .base _ n => n
  | .node _ n _ => n

/-- The optional `ofType` property of a type reference. -/
def TypeRef.ofType : TypeRef → Option TypeRef
  | .base _ _ => none
  | .node _ _ i => some i

/-- An argument entry (`GraphQLInputField`).  The resolver only ever reads
the length of the argument array, so the entry's `type` (never dereferenced
by the code under study) is omitted. -/
structure GraphQLInputField : Type where
  name : String
  description : Option String
deriving DecidableEq

/-- A field of an object/interface type, mirroring the `GraphQLField`
interface: `name`, optional `description`, a `type` reference and an
optional argument array. -/
structure GraphQLField : Type where
  name : String
  description : Option String
  type : TypeRef
  args : Option (List GraphQLInputField)
deriving DecidableEq

/-- A definition-level schema type (an entry of `schema.types`, or a root
operation type object): `name`, `kind` and the optional `fields` array.
Properties the resolver never reads (`enumValues`, `inputFields`,
`description`) are omitted. -/
structure GraphQLType : Type where
  name : String
  kind : String
  fields : Option (List GraphQLField)
deriving DecidableEq

/-- The `GraphQLSchema` interface: the three optional root type objects
and the `types` array. -/
structure GraphQLSchema : Type where
  queryType : Option GraphQLType
  mutationType : Option GraphQLType
  subscriptionType : Option GraphQLType
  types : List GraphQLType
deriving DecidableEq

/-- A completion item (`Suggestion` interface).  The code always populates
all four properties for the items it produces. -/
structure Suggestion : Type where
  label : String
  detail : String
  documentation : String
  insertText : String
deriving DecidableEq

/-- Kinds that the source unwraps (`NON_NULL` and `LIST`). -/
def isWrapperKind (k : String) : Bool := k = "NON_NULL" || k = "LIST"

/-- The `getTypeString` callback of `monaco-editor.tsx`: renders a type
reference, recursing through `ofType!`.  A missing `ofType` under a wrapper
kind is the thrown TypeError, modelled as `.error ()`. -/
def getTypeString : TypeRef → Except Unit String
  | .base k n =>
    if k = "NON_NULL" then .error ()
    else if k = "LIST" then .error ()
    else .ok (if n = "" then "Unknown" else n)
  | .node k n i =>
    if k = "NON_NULL" then
      match getTypeString i with
      | .error e => .error e
      | .ok s => .ok (s ++ "!")
    else if k = "LIST" then
      match getTypeString i with
      | .error e => .error e
      | .ok s => .ok ("[" ++ s ++ "]")
    else .ok (if n = "" then "Unknown" else n)

/-- The `renderType` callback of `graphql-client.tsx`, a second copy of the
same rendering logic. -/
def renderType : TypeRef → Except Unit String
  | .base k n =>
    if k = "NON_NULL" then .error ()
    else if k = "LIST" then .error ()
    else .ok (if n = "" then "Unknown" else n)
  | .node k n i =>
    if k = "NON_NULL" then
      match renderType i with
      | .error e => .error e
      | .ok s => .ok (s ++ "!")
    else if k = "LIST" then
      match renderType i with
      | .error e => .error e
      | .ok s => .ok ("[" ++ s ++ "]")
    else .ok (if n = "" then "Unknown" else n)

/-- The unwrap loop
`while (fieldType.kind === 'NON_NULL' || fieldType.kind === 'LIST') fieldType = fieldType.ofType!`:
peels wrapper kinds; a wrapper without `ofType` throws. -/
def unwrapType : TypeRef → Except Unit TypeRef
  | .base k n => if isWrapperKind k then .error () else .ok (.base k n)
  | .node k n i => if isWrapperKind k then unwrapType i else .ok (.node k n i)

/-- `findTypeByName`: `schema.types.find(type => type.name === typeName)`. -/
def findTypeByName (schema : GraphQLSchema) (typeName : String) : Option GraphQLType :=
  schema.types.find? (fun t => t.name = typeName)

/-- The root name used to locate the base query type:
`schema.queryType?.name || 'Query'` (the fallback also fires for an empty
name, matching JavaScript truthiness). -/
def queryTypeNameOf (schema : GraphQLSchema) : String :=
  match schema.queryType with
  | some t => if t.name = "" then "Query" else t.name
  | none => "Query"

/-- The base scope lookup of `getContextType`: find the query type by the
declared root name, falling back to any type whose lower-cased name is
`query`. -/
def baseScope (schema : GraphQLSchema) : Option GraphQLType :=
  match schema.types.find? (fun t => t.name = queryTypeNameOf schema) with
  | some t => some t
  | none => schema.types.find? (fun t => lowerStr t.name = "query")

/-- One iteration of the field-path loop of `getContextType`: take the text
of one brace segment, keep what follows its last `}`, extract the trailing
field tokens and, when the last token names a field of the current scope,
advance the scope to that field's unwrapped, schema-resolved type.  All
failure branches keep the scope unchanged. -/
def walkStep (schema : GraphQLSchema) (cur : Option GraphQLType) (content : List Char) :
    Except Unit (Option GraphQLType) :=
  match (tokens (afterLastClose content)).getLast? with
  | none => .ok cur
  | some fieldName =>
    match cur with
    | none => .ok cur
    | some ct =>
      match ct.fields with
      | none => .ok cur
      | some fs =>
        match fs.find? (fun f => f.name = fieldName) with
        | none => .ok cur
        | some f =>
          match unwrapType f.type with
          | .error e => .error e
          | .ok ft =>
            if ft.name ≠ "" then
              match findTypeByName schema ft.name with
              | some nt => .ok (some nt)
              | none => .ok cur
            else .ok cur

/-- The field-path loop over all brace segments after the first. -/
def walkAll (schema : GraphQLSchema) : Option GraphQLType → List (List Char) →
    Except Unit (Option GraphQLType)
  | cur, [] => .ok cur
  | cur, seg :: rest =>
    match walkStep schema cur seg with
    | .error e => .error e
    | .ok c => walkAll schema c rest

/-- `getContextType` of `monaco-editor.tsx`: the operation-keyword checks,
the depth-0 early return, and the brace-segment field-path walk.  (The
source also counts `}` characters into an unused local.) -/
def getContextType (schema : GraphQLSchema) (beforeCursor : List Char) :
    Except Unit (Option GraphQLType) :=
  if containsSeq "mutation".data beforeCursor && !containsSeq "query".data beforeCursor then
    .ok schema.mutationType
  else if containsSeq "subscription".data beforeCursor && !containsSeq "query".data beforeCursor then
    .ok schema.subscriptionType
  else if countChar openBrace beforeCursor = 0 then
    .ok none
  else
    walkAll schema (baseScope schema) ((splitOnChar openBrace beforeCursor).drop 1)

/-- The root-level `query` completion item. -/
def querySuggestion : Suggestion :=
  { label := "query", detail := "Query operation",
    documentation := "Fetch data from the GraphQL endpoint",
    insertText := "query \x7b\n  " }

/-- The root-level `mutation` completion item. -/
def mutationSuggestion : Suggestion :=
  { label := "mutation", detail := "Mutation operation",
    documentation := "Modify data on the GraphQL endpoint",
    insertText := "mutation \x7b\n  " }

/-- The root-level `subscription` completion item. -/
def subscriptionSuggestion : Suggestion :=
  { label := "subscription", detail := "Subscription operation",
    documentation := "Listen for real-time updates",
    insertText := "subscription \x7b\n  " }

/-- The depth-0 branch of `getSuggestions`: the trimmed current line is a
case-insensitive prefix filter over the three operation keywords;
`mutation`/`subscription` additionally require the root type to be
declared. -/
def rootSuggestions (schema : GraphQLSchema) (trimmed : List Char) : List Suggestion :=
  (if (lower trimmed).isPrefixOf "query".data then [querySuggestion] else [])
    ++ (if (lower trimmed).isPrefixOf "mutation".data && schema.mutationType.isSome
        then [mutationSuggestion] else [])
    ++ (if (lower trimmed).isPrefixOf "subscription".data && schema.subscriptionType.isSome
        then [subscriptionSuggestion] else [])

/-- `true` when the field's argument array is present and non-empty
(`field.args && field.args.length > 0`). -/
def fieldHasArgs (f : GraphQLField) : Bool :=
  match f.args with
  | some l => decide (l.length > 0)
  | none => false

/-- The `hasComplexType` check: `OBJECT` at the top, or exactly one
`NON_NULL`/`LIST` wrapper whose direct `ofType` is an `OBJECT`. -/
def hasComplexType (t : TypeRef) : Bool :=
  t.kind = "OBJECT"
    || (t.kind = "NON_NULL" && (match t.ofType with
        | some i => i.kind = "OBJECT"
        | none => false))
    || (t.kind = "LIST" && (match t.ofType with
        | some i => i.kind = "OBJECT"
        | none => false))

/-- Build one field completion item, as the `.map` body in
`getSuggestions` does: label, rendered type detail, description fallback,
and the insert text chosen by the argument/complex-type checks. -/
def mkSuggestion (f : GraphQLField) : Except Unit Suggestion :=
  match getTypeString f.type with
  | .error e => .error e
  | .ok ts =>
    .ok { label := f.name,
          detail := ts,
          documentation :=
            (match f.description with
            | some d => if d = "" then "Field of type " ++ ts else d
            | none => "Field of type " ++ ts),
          insertText :=
            if fieldHasArgs f then f.name ++ "("
            else if hasComplexType f.type then f.name ++ " \x7b"
            else f.name }

/-- Left-to-right effectful map, modelling `Array.prototype.map` where the
mapped function may throw: the first throw aborts the whole call. -/
def mapExcept (g : α → Except Unit β) : List α → Except Unit (List β)
  | [] => .ok []
  | a :: l =>
    match g a with
    | .error e => .error e
    | .ok b =>
      match mapExcept g l with
      | .error e => .error e
      | .ok r => .ok (b :: r)

/-- The filter predicate on candidate fields:
`field.name.toLowerCase().includes(partial.toLowerCase())`. -/
def fieldPred (p : List Char) (f : GraphQLField) : Bool :=
  containsSeq (lower p) (lower f.name.data)

/-- The sort comparator as a total preorder: a prefix match sorts before a
non-prefix match, ties fall back to `localeCompare` (modelled by
code-point order). -/
def suggLE (p : List Char) (a b : Suggestion) : Bool :=
  if (lower p).isPrefixOf (lower a.label.data)
      && !(lower p).isPrefixOf (lower b.label.data) then true
  else if !(lower p).isPrefixOf (lower a.label.data)
      && (lower p).isPrefixOf (lower b.label.data) then false
  else strLE a.label.data b.label.data

/-- Insert into a sorted list, keeping equal elements stable. -/
def sortedInsert (le : α → α → Bool) (a : α) : List α → List α
  | [] => [a]
  | b :: l => if le a b then a :: b :: l else b :: sortedInsert le a l

/-- Stable insertion sort, modelling `Array.prototype.sort` with a
consistent comparator (stable since ES2019). -/
def insertionSortB (le : α → α → Bool) : List α → List α
  | [] => []
  | a :: l => sortedInsert le a (insertionSortB le l)

/-- The in-selection branch of `getSuggestions`: filter the scope's fields
by substring match, build the items (which may throw while rendering type
signatures), then sort with the prefix-first comparator. -/
def fieldSuggestions (p : List Char) (fs : List GraphQLField) : Except Unit (List Suggestion) :=
  match mapExcept mkSuggestion (fs.filter (fieldPred p)) with
  | .error e => .error e
  | .ok items => .ok (insertionSortB (suggLE p) items)

/-- `getSuggestions` of `monaco-editor.tsx` (the `language === 'graphql'`
path): no schema yields no items; otherwise resolve the context type, give
keyword items at depth 0, and field items filtered by the trailing word of
the current line elsewhere — an unresolvable or field-less scope yields no
items. -/
def getSuggestions (schema? : Option GraphQLSchema) (text : String) (position : Nat) :
    Except Unit (List Suggestion) :=
  match schema? with
  | none => .ok []
  | some schema =>
    let beforeCursor := text.data.take position
    let currentLine := lastLine beforeCursor
    match getContextType schema beforeCursor with
    | .error e => .error e
    | .ok ctx =>
      if countChar openBrace beforeCursor = 0 then
        .ok (rootSuggestions schema (trimChars currentLine))
      else
        match ctx with
        | some ct =>
          match ct.fields with
          | some fs => fieldSuggestions (trailingWordRun currentLine) fs
          | none => .ok []
        | none => .ok []

/-- Labels of a resolution result, `none` when the call threw. -/
def resultLabels (r : Except Unit (List Suggestion)) : Option (List String) :=
  match r with
  | .ok l => some (l.map (fun s => s.label))
  | .error _ => none

/-- Insert texts of a resolution result, `none` when the call threw. -/
def resultInserts (r : Except Unit (List Suggestion)) : Option (List String) :=
  match r with
  | .ok l => some (l.map (fun s => s.insertText))
  | .error _ => none

instance {ε α : Type} [DecidableEq ε] [DecidableEq α] : DecidableEq (Except ε α) :=
  fun a b =>
    match a, b with
    | .error e, .error f => decidable_of_iff (e = f) (by simp)
    | .error _, .ok _ => .isFalse (by simp)
    | .ok _, .error _ => .isFalse (by simp)
    | .ok x, .ok y => decidable_of_iff (x = y) (by simp)

/-! Concrete schemas.  `scSchema` is the scenario schema of the spec:
`type Query { countries: [Country!]!, country(code: String!): Country }`,
`type Country { code: ID!, name: String!, capital: String }`. -/

/-- Field list of the scenario `Country` type. -/
def scCountryFields : List GraphQLField :=
  [ { name := "code", description := none,
      type := .node "NON_NULL" "" (.base "SCALAR" "ID"), args := none },
    { name := "name", description := none,
      type := .node "NON_NULL" "" (.base "SCALAR" "String"), args := none },
    { name := "capital", description := none,
      type := .base "SCALAR" "String", args := none } ]

/-- The scenario `Country` type definition. -/
def scCountry : GraphQLType :=
  { name := "Country", kind := "OBJECT", fields := some scCountryFields }

/-- The scenario field `countries: [Country!]!` (no arguments, doubly
wrapped object type). -/
def scCountriesField : GraphQLField :=
  { name := "countries", description := none,
    type := .node "NON_NULL" ""
      (.node "LIST" "" (.node "NON_NULL" "" (.base "OBJECT" "Country"))),
    args := none }

/-- The scenario field `country(code: String!): Country` (one argument). -/
def scCountryField : GraphQLField :=
  { name := "country", description := none,
    type := .base "OBJECT" "Country",
    args := some [{ name := "code", description := none }] }

/-- Field list of the scenario `Query` type. -/
def scQueryFields : List GraphQLField := [scCountriesField, scCountryField]

/-- The completion item the resolver produces for `countries`. -/
def scCountriesSugg : Suggestion :=
  { label := "countries", detail := "[Country!]!",
    documentation := "Field of type [Country!]!", insertText := "countries" }

/-- The completion item the resolver produces for `country`. -/
def scCountrySugg : Suggestion :=
  { label := "country", detail := "Country",
    documentation := "Field of type Country", insertText := "country(" }

/-- The scenario `Query` type definition. -/
def scQuery : GraphQLType :=
  { name := "Query", kind := "OBJECT", fields := some scQueryFields }

/-- The scenario schema.  As in the data this program receives, the root
`queryType` object carries only a name. -/
def scSchema : GraphQLSchema :=
  { queryType := some { name := "Query", kind := "OBJECT", fields := none },
    mutationType := none, subscriptionType := none,
    types := [scQuery, scCountry] }

/-- A `User` type with a single `name` field, for the mutation schemas. -/
def muUser : GraphQLType :=
  { name := "User", kind := "OBJECT",
    fields := some [ { name := "name", description := none,
                       type := .base "SCALAR" "String", args := none } ] }

/-- A `Mutation` type declaring `addUser: User`. -/
def muMutation : GraphQLType :=
  { name := "Mutation", kind := "OBJECT",
    fields := some [ { name := "addUser", description := none,
                       type := .base "OBJECT" "User", args := none } ] }

/-- A schema whose `mutationType` root object carries the full `Mutation`
definition (possible under the `GraphQLSchema` interface). -/
def muSchema : GraphQLSchema :=
  { queryType := some { name := "Query", kind := "OBJECT", fields := none },
    mutationType := some muMutation, subscriptionType := none,
    types := [muMutation, muUser] }

/-- A `Cap` object type with a single field `x`. -/
def advCap : GraphQLType :=
  { name := "Cap", kind := "OBJECT",
    fields := some [ { name := "x", description := none,
                       type := .base "SCALAR" "String", args := none } ] }

/-- A `capital: String` field. -/
def advCapitalField : GraphQLField :=
  { name := "capital", description := none,
    type := .base "SCALAR" "String", args := none }

/-- A field literally named `cap`, of object type `Cap`. -/
def advCapField : GraphQLField :=
  { name := "cap", description := none,
    type := .base "OBJECT" "Cap", args := none }

/-- A `Country` variant that declares both `capital` and a field literally
named `cap` of object type `Cap`. -/
def advCountry : GraphQLType :=
  { name := "Country", kind := "OBJECT",
    fields := some [advCapitalField, advCapField] }

/-- The field `countries: [Country]`. -/
def advCountriesField : GraphQLField :=
  { name := "countries", description := none,
    type := .node "LIST" "" (.base "OBJECT" "Country"), args := none }

/-- A `Query` type with `countries: [Country]`. -/
def advQuery : GraphQLType :=
  { name := "Query", kind := "OBJECT", fields := some [advCountriesField] }

/-- Schema for the `cap`-shadowing variant. -/
def advSchema : GraphQLSchema :=
  { queryType := some { name := "Query", kind := "OBJECT", fields := none },
    mutationType := none, subscriptionType := none,
    types := [advQuery, advCountry, advCap] }

/-- A `Query` type whose single field `ghost` has a type name that the
schema's `types` array does not contain. -/
def ghQuery : GraphQLType :=
  { name := "Query", kind := "OBJECT",
    fields := some [ { name := "ghost", description := none,
                       type := .base "OBJECT" "Phantom", args := none } ] }

/-- Schema containing `ghQuery` but no `Phantom` entry. -/
def ghSchema : GraphQLSchema :=
  { queryType := some { name := "Query", kind := "OBJECT", fields := none },
    mutationType := none, subscriptionType := none,
    types := [ghQuery] }

/-- A schema whose `Query` entry carries no `fields` array at all. -/
def nfSchema : GraphQLSchema :=
  { queryType := some { name := "Query", kind := "OBJECT", fields := none },
    mutationType := none, subscriptionType := none,
    types := [{ name := "Query", kind := "OBJECT", fields := none }] }

/-! Well-formedness: the data-model invariant that `ofType` is present
under every `NON_NULL`/`LIST` wrapper (spec §3: `wrapped` is set iff the
kind is LIST or NON_NULL).  This is exactly what the `ofType!` assertions
in the source assume. -/

/-- The wrapper chain of a type reference is fully populated: every
wrapper kind has an `ofType` (checked only as deep as the unwrap loop and
the renderer walk). -/
def wfChain : TypeRef → Bool
  | .base k _ => !isWrapperKind k
  | .node k _ i => if isWrapperKind k then wfChain i else true

/-- All declared fields of a definition-level type have well-formed
wrapper chains. -/
def typeFieldsWF (t : GraphQLType) : Bool :=
  (t.fields.getD []).all (fun f => wfChain f.type)

/-- Schema-wide well-formedness: every type the resolver can adopt as a
scope (a `types` entry or a root operation object) has well-formed field
types. -/
def schemaWF (s : GraphQLSchema) : Bool :=
  s.types.all typeFieldsWF
    && (match s.mutationType with | some t => typeFieldsWF t | none => true)
    && (match s.subscriptionType with | some t => typeFieldsWF t | none => true)

/-- A type the resolver can hold as its current scope: an entry of
`schema.types` or one of the root operation objects. -/
def InSchema (s : GraphQLSchema) (t : GraphQLType) : Prop :=
  t ∈ s.types ∨ s.mutationType = some t ∨ s.subscriptionType = some t

/-- An optional scope all of whose values are schema-covered. -/
def CovOpt (s : GraphQLSchema) (o : Option GraphQLType) : Prop :=
  ∀ t, o = some t → InSchema s t

/-! Wrapper chains for the renderer property. -/

/-- One layer of TypeRef wrapping. -/
inductive Wrapper : Type where
  | list
  | nonNull
deriving DecidableEq

/-- Apply a chain of LIST/NON_NULL wrappers (outermost first) around a
type reference, with the `null` name wrappers carry in introspection
data. -/
def applyWraps : List Wrapper → TypeRef → TypeRef
  | [], t => t
  | .list :: ws, t => .node "LIST" "" (applyWraps ws t)
  | .nonNull :: ws, t => .node "NON_NULL" "" (applyWraps ws t)

/-- The canonical GraphQL signature of a wrap chain around a named type:
brackets for LIST, a trailing bang for NON_NULL. -/
def mirror : List Wrapper → String → String
  | [], n => n
  | .list :: ws, n => "[" ++ mirror ws n ++ "]"
  | .nonNull :: ws, n => mirror ws n ++ "!"

/-! The schema-installation decision of `fetchSchema` in
`graphql-client.tsx`. -/

/-- The raw `data.__schema` object of an introspection response, before
any validation: every property may be absent. -/
structure RawSchema : Type where
  queryType : Option GraphQLType
  mutationType : Option GraphQLType
  subscriptionType : Option GraphQLType
  types : Option (List GraphQLType)
deriving DecidableEq

/-- The raw `__schema` value for the empty object `\x7b\x7d`. -/
def emptyRawSchema : RawSchema :=
  { queryType := none, mutationType := none, subscriptionType := none, types := none }

/-- The state update `fetchSchema` performs on the installed schema:
when the response carries GraphQL `errors`, or `data.__schema` is absent,
an error is thrown (and caught), leaving the previous schema in place;
otherwise `setSchema` installs the received `__schema` object as-is, with
no structural validation. -/
def fetchSchemaUpdate (prev : Option RawSchema) (hasErrors : Bool)
    (schemaObj : Option RawSchema) : Option RawSchema :=
  if hasErrors then prev
  else
    match schemaObj with
    | some s => some s
    | none => prev

/-! Fuel sufficiency for the token scanner: each emitted token consumes at
least one character, so any fuel of at least the text length gives the same
token list.  This justifies `tokens l = tokensGo l.length l` as the total
semantics of the regex scan. -/

theorem dropWhileLenLE (p : α → Bool) (l : List α) :
    (l.dropWhile p).length ≤ l.length := by
  induction l with
  | nil => simp
  | cons a l ih =>
    by_cases h : p a
    · rw [List.dropWhile_cons_of_pos h]
      exact Nat.le_trans ih (by simp)
    · rw [List.dropWhile_cons_of_neg h]

theorem dropWhileHeadFalse {p : α → Bool} :
    ∀ {l : List α} {c : α} {r : List α}, l.dropWhile p = c :: r → p c = false := by
  intro l
  induction l with
  | nil => intro c r h; simp [List.dropWhile] at h
  | cons a l ih =>
    intro c r h
    by_cases hp : p a
    · rw [List.dropWhile_cons_of_pos hp] at h
      exact ih h
    · rw [List.dropWhile_cons_of_neg hp] at h
      cases h
      exact Bool.of_not_eq_true hp

theorem argsAfterSpaceLen {a : Char} {rest r : List Char}
    (h : argsAfterSpace a rest = some r) : r.length < rest.length + 1 := by
  unfold argsAfterSpace at h
  split at h
  · split at h
    next hd2 => exact absurd h (by simp)
    next b r2 hd2 =>
      split at h
      · simp only [Option.some.injEq] at h
        subst h
        have h1 : r2.length + 1 ≤ rest.length := by
          have := dropWhileLenLE (fun c => !(c = ')')) rest
          rw [hd2] at this
          simpa using this
        omega
      · exact absurd h (by simp)
  · exact absurd h (by simp)

theorem argsSkipLen {l r : List Char} (h : argsSkip l = some r) :
    r.length < l.length := by
  unfold argsSkip at h
  cases hd : l.dropWhile isSpaceChar with
  | nil => rw [hd] at h; exact absurd h (by simp)
  | cons a rest =>
    rw [hd] at h
    have h1 : r.length < rest.length + 1 := argsAfterSpaceLen h
    have h2 : rest.length + 1 ≤ l.length := by
      have := dropWhileLenLE isSpaceChar l
      rw [hd] at this
      simpa using this
    omega

theorem wordTailLen {l : List Char} {c : Char} {r : List Char}
    (h : l.dropWhile (fun c => !isWordChar c) = c :: r) :
    ((c :: r).dropWhile isWordChar).length < l.length := by
  have hc : isWordChar c = true := by
    have := dropWhileHeadFalse h
    simpa using this
  have h1 : (c :: r).dropWhile isWordChar = r.dropWhile isWordChar :=
    List.dropWhile_cons_of_pos hc
  have h2 : (r.dropWhile isWordChar).length ≤ r.length := dropWhileLenLE _ r
  have h3 : r.length + 1 ≤ l.length := by
    have := dropWhileLenLE (fun c => !isWordChar c) l
    rw [h] at this
    simpa using this
  rw [h1]
  omega

theorem tokensGo_fuel :
    ∀ (n : Nat), ∀ {m : Nat} {l : List Char}, l.length ≤ n → l.length ≤ m →
      tokensGo n l = tokensGo m l := by
  intro n
  induction n with
  | zero =>
    intro m l hn _
    have : l = [] := List.length_eq_zero.mp (Nat.le_zero.mp hn)
    subst this
    cases m with
    | zero => rfl
    | succ m => rw [tokensGo, tokensGo]; simp
  | succ n ih =>
    intro m l hn hm
    cases m with
    | zero =>
      have : l = [] := List.length_eq_zero.mp (Nat.le_zero.mp hm)
      subst this
      rw [tokensGo, tokensGo]
      simp
    | succ m =>
      rw [tokensGo, tokensGo]
      cases hd : l.dropWhile (fun c => !isWordChar c) with
      | nil => rfl
      | cons c rest =>
        have hr1 : ((c :: rest).dropWhile isWordChar).length < l.length := wordTailLen hd
        cases ha : argsSkip ((c :: rest).dropWhile isWordChar) with
        | none =>
          simp only [ha]
          rw [ih (show ((c :: rest).dropWhile isWordChar).length ≤ n by omega)
                (show ((c :: rest).dropWhile isWordChar).length ≤ m by omega)]
        | some r2 =>
          have hr2 : r2.length < ((c :: rest).dropWhile isWordChar).length := argsSkipLen ha
          simp only [ha]
          rw [ih (show r2.length ≤ n by omega) (show r2.length ≤ m by omega)]

/-! Sorting lemmas: membership, permutation and sortedness of the stable
insertion sort, for a total and transitive Boolean comparator. -/

theorem mem_sortedInsert {le : α → α → Bool} {a x : α} :
    ∀ {l : List α}, x ∈ sortedInsert le a l ↔ x = a ∨ x ∈ l := by
  intro l
  induction l with
  | nil => simp [sortedInsert]
  | cons b l ih =>
    rw [sortedInsert]
    by_cases h : le a b
    · rw [if_pos h]
      simp [List.mem_cons]
    · rw [if_neg h]
      simp only [List.mem_cons, ih]
      tauto

theorem sortedInsert_perm (le : α → α → Bool) (a : α) :
    ∀ (l : List α), (sortedInsert le a l).Perm (a :: l) := by
  intro l
  induction l with
  | nil => simp [sortedInsert]
  | cons b l ih =>
    by_cases h : le a b
    · simp [sortedInsert, h]
    · simp only [sortedInsert, if_neg h]
      exact .trans (ih.cons b) (.swap a b l)

theorem insertionSortB_perm (le : α → α → Bool) :
    ∀ (l : List α), (insertionSortB le l).Perm l := by
  intro l
  induction l with
  | nil => simp [insertionSortB]
  | cons a l ih =>
    exact .trans (sortedInsert_perm le a (insertionSortB le l)) (ih.cons a)

theorem mem_insertionSortB {le : α → α → Bool} {x : α} {l : List α} :
    x ∈ insertionSortB le l ↔ x ∈ l :=
  (insertionSortB_perm le l).mem_iff

theorem pairwise_sortedInsert {le : α → α → Bool}
    (htot : ∀ a b, le a b || le b a)
    (htrans : ∀ a b c, le a b = true → le b c = true → le a c = true)
    (a : α) :
    ∀ {l : List α}, l.Pairwise (fun x y => le x y = true) →
      (sortedInsert le a l).Pairwise (fun x y => le x y = true) := by
  intro l
  induction l with
  | nil => intro _; simp [sortedInsert]
  | cons b l ih =>
    intro h
    rcases List.pairwise_cons.mp h with ⟨hb, hl⟩
    by_cases hab : le a b
    · rw [sortedInsert, if_pos hab]
      refine List.pairwise_cons.mpr ⟨?_, h⟩
      intro x hx
      rcases List.mem_cons.mp hx with rfl | hx
      · exact hab
      · exact htrans a b x hab (hb x hx)
    · rw [sortedInsert, if_neg hab]
      refine List.pairwise_cons.mpr ⟨?_, ih hl⟩
      intro x hx
      rcases mem_sortedInsert.mp hx with he | hx
      · rw [he]
        have h2 := htot a b
        have h3 : le a b = false := by
          cases h4 : le a b
          · rfl
          · exact absurd h4 hab
        rw [h3] at h2
        simpa using h2
      · exact hb x hx

theorem pairwise_insertionSortB {le : α → α → Bool}
    (htot : ∀ a b, le a b || le b a)
    (htrans : ∀ a b c, le a b = true → le b c = true → le a c = true) :
    ∀ (l : List α), (insertionSortB le l).Pairwise (fun x y => le x y = true) := by
  intro l
  induction l with
  | nil => simp [insertionSortB]
  | cons a l ih => exact pairwise_sortedInsert htot htrans a ih

/-! The comparator is a total preorder. -/

theorem strLE_total : ∀ a b : List Char, strLE a b || strLE b a := by
  intro a
  induction a with
  | nil => intro b; simp [strLE]
  | cons x xs ih =>
    intro b
    cases b with
    | nil => simp [strLE]
    | cons y ys =>
      by_cases hxy : x = y
      · subst hxy
        simpa [strLE] using ih ys
      · rcases lt_trichotomy x y with h | h | h
        · simp [strLE, hxy, h]
        · exact absurd h hxy
        · simp [strLE, hxy, Ne.symm hxy, h]

theorem strLE_trans :
    ∀ a b c : List Char, strLE a b = true → strLE b c = true → strLE a c = true := by
  intro a
  induction a with
  | nil => intro b c _ _; simp [strLE]
  | cons x xs ih =>
    intro b c hab hbc
    cases b with
    | nil => simp [strLE] at hab
    | cons y ys =>
      cases c with
      | nil => simp [strLE] at hbc
      | cons z zs =>
        by_cases hxy : x = y
        · subst hxy
          rw [strLE, if_pos rfl] at hab
          by_cases hyz : x = z
          · subst hyz
            rw [strLE, if_pos rfl] at hbc ⊢
            exact ih ys zs hab hbc
          · rw [strLE, if_neg hyz] at hbc ⊢
            exact hbc
        · rw [strLE, if_neg hxy] at hab
          have hxy' : x < y := of_decide_eq_true hab
          by_cases hyz : y = z
          · subst hyz
            rw [strLE, if_neg hxy]
            exact decide_eq_true hxy'
          · rw [strLE, if_neg hyz] at hbc
            have hyz' : y < z := of_decide_eq_true hbc
            have hxz : x < z := lt_trans hxy' hyz'
            rw [strLE, if_neg (ne_of_lt hxz)]
            exact decide_eq_true hxz

theorem suggLE_total (p : List Char) : ∀ a b, suggLE p a b || suggLE p b a := by
  intro a b
  unfold suggLE
  cases ha : (lower p).isPrefixOf (lower a.label.data) with
  | true =>
    cases hb : (lower p).isPrefixOf (lower b.label.data) with
    | true => simpa using strLE_total a.label.data b.label.data
    | false => simp
  | false =>
    cases hb : (lower p).isPrefixOf (lower b.label.data) with
    | true => simp
    | false => simpa using strLE_total a.label.data b.label.data

theorem suggLE_trans (p : List Char) :
    ∀ a b c, suggLE p a b = true → suggLE p b c = true → suggLE p a c = true := by
  intro a b c hab hbc
  unfold suggLE at hab hbc ⊢
  cases ha : (lower p).isPrefixOf (lower a.label.data) <;>
    cases hb : (lower p).isPrefixOf (lower b.label.data) <;>
      cases hc : (lower p).isPrefixOf (lower c.label.data) <;>
        simp_all <;>
          exact strLE_trans a.label.data b.label.data c.label.data hab hbc

/-! Effectful map lemmas. -/

theorem mapExcept_ok_of_all {g : α → Except Unit β} :
    ∀ {l : List α}, (∀ a ∈ l, ∃ b, g a = .ok b) → ∃ r, mapExcept g l = .ok r := by
  intro l
  induction l with
  | nil => intro _; exact ⟨[], rfl⟩
  | cons a l ih =>
    intro h
    obtain ⟨b, hb⟩ := h a (by simp)
    obtain ⟨r, hr⟩ := ih (fun x hx => h x (by simp [hx]))
    exact ⟨b :: r, by rw [mapExcept, hb, hr]⟩

theorem mapExcept_mem_ok {g : α → Except Unit β} :
    ∀ {l : List α} {r : List β}, mapExcept g l = .ok r →
      ∀ {a}, a ∈ l → ∃ b, g a = .ok b ∧ b ∈ r := by
  intro l
  induction l with
  | nil => intro r _ a ha; simp at ha
  | cons x l ih =>
    intro r hr a ha
    rw [mapExcept] at hr
    cases hx : g x with
    | error e => rw [hx] at hr; exact absurd hr (by simp)
    | ok b =>
      rw [hx] at hr
      cases hrest : mapExcept g l with
      | error e => rw [hrest] at hr; exact absurd hr (by simp)
      | ok rs =>
        rw [hrest] at hr
        simp only [Except.ok.injEq] at hr
        subst hr
        rcases List.mem_cons.mp ha with rfl | ha
        · exact ⟨b, hx, by simp⟩
        · obtain ⟨b2, hb2, hmem⟩ := ih hrest ha
          exact ⟨b2, hb2, by simp [hmem]⟩

theorem mapExcept_mem_rev {g : α → Except Unit β} :
    ∀ {l : List α} {r : List β}, mapExcept g l = .ok r →
      ∀ {b}, b ∈ r → ∃ a, a ∈ l ∧ g a = .ok b := by
  intro l
  induction l with
  | nil =>
    intro r hr b hb
    rw [mapExcept] at hr
    simp only [Except.ok.injEq] at hr
    subst hr
    simp at hb
  | cons x l ih =>
    intro r hr b hb
    rw [mapExcept] at hr
    cases hx : g x with
    | error e => rw [hx] at hr; exact absurd hr (by simp)
    | ok b1 =>
      rw [hx] at hr
      cases hrest : mapExcept g l with
      | error e => rw [hrest] at hr; exact absurd hr (by simp)
      | ok rs =>
        rw [hrest] at hr
        simp only [Except.ok.injEq] at hr
        subst hr
        rcases List.mem_cons.mp hb with rfl | hb
        · exact ⟨x, by simp, hx⟩
        · obtain ⟨a, hal, hab⟩ := ih hrest hb
          exact ⟨a, by simp [hal], hab⟩

theorem mapExcept_labels {l : List GraphQLField} :
    ∀ {r : List Suggestion}, mapExcept mkSuggestion l = .ok r →
      r.map (fun s => s.label) = l.map (fun f => f.name) := by
  induction l with
  | nil =>
    intro r hr
    rw [mapExcept] at hr
    simp only [Except.ok.injEq] at hr
    subst hr
    rfl
  | cons x l ih =>
    intro r hr
    rw [mapExcept] at hr
    cases hx : mkSuggestion x with
    | error e => rw [hx] at hr; exact absurd hr (by simp)
    | ok b =>
      rw [hx] at hr
      cases hrest : mapExcept mkSuggestion l with
      | error e => rw [hrest] at hr; exact absurd hr (by simp)
      | ok rs =>
        rw [hrest] at hr
        simp only [Except.ok.injEq] at hr
        subst hr
        have hlab : b.label = x.name := by
          unfold mkSuggestion at hx
          cases hts : getTypeString x.type with
          | error e => rw [hts] at hx; exact absurd hx (by simp)
          | ok ts =>
            rw [hts] at hx
            simp only [Except.ok.injEq] at hx
            rw [← hx]
        simp [hlab, ih hrest]

/-! Well-formed wrapper chains never throw. -/

theorem unwrapType_ok : ∀ {t : TypeRef}, wfChain t = true → ∃ u, unwrapType t = .ok u := by
  intro t
  induction t with
  | base k n =>
    intro h
    rw [wfChain] at h
    rw [unwrapType]
    rw [if_neg (by simpa using h)]
    exact ⟨.base k n, rfl⟩
  | node k n i ih =>
    intro h
    rw [wfChain] at h
    rw [unwrapType]
    by_cases hw : isWrapperKind k
    · rw [if_pos hw]
      rw [if_pos hw] at h
      exact ih h
    · rw [if_neg hw]
      exact ⟨.node k n i, rfl⟩

theorem getTypeString_ok : ∀ {t : TypeRef}, wfChain t = true → ∃ s, getTypeString t = .ok s := by
  intro t
  induction t with
  | base k n =>
    intro h
    rw [wfChain] at h
    have hk : isWrapperKind k = false := by simpa using h
    unfold isWrapperKind at hk
    simp only [Bool.or_eq_false_iff, decide_eq_false_iff_not] at hk
    rw [getTypeString, if_neg hk.1, if_neg hk.2]
    exact ⟨_, rfl⟩
  | node k n i ih =>
    intro h
    rw [wfChain] at h
    by_cases h1 : k = "NON_NULL"
    · have hw : isWrapperKind k := by simp [isWrapperKind, h1]
      rw [if_pos hw] at h
      obtain ⟨s, hs⟩ := ih h
      rw [getTypeString, if_pos h1, hs]
      exact ⟨s ++ "!", rfl⟩
    · by_cases h2 : k = "LIST"
      · have hw : isWrapperKind k := by simp [isWrapperKind, h2]
        rw [if_pos hw] at h
        obtain ⟨s, hs⟩ := ih h
        rw [getTypeString, if_neg h1, if_pos h2, hs]
        exact ⟨"[" ++ s ++ "]", rfl⟩
      · rw [getTypeString, if_neg h1, if_neg h2]
        exact ⟨_, rfl⟩

theorem mkSuggestion_ok {f : GraphQLField} (h : wfChain f.type = true) :
    ∃ s, mkSuggestion f = .ok s := by
  obtain ⟨ts, hts⟩ := getTypeString_ok h
  rw [mkSuggestion, hts]
  exact ⟨_, rfl⟩

/-! Schema coverage: the resolver's current scope is always a `types`
entry or a root operation object, so a well-formed schema keeps every
reachable field's wrapper chain well-formed. -/

theorem schemaWF_field {s : GraphQLSchema} {t : GraphQLType} {f : GraphQLField}
    (hs : schemaWF s = true) (ht : InSchema s t) (hf : f ∈ t.fields.getD []) :
    wfChain f.type = true := by
  unfold schemaWF at hs
  simp only [Bool.and_eq_true] at hs
  obtain ⟨⟨h1, h2⟩, h3⟩ := hs
  have htw : typeFieldsWF t = true := by
    rcases ht with hmem | hmu | hsu
    · exact List.all_eq_true.mp h1 t hmem
    · rw [hmu] at h2; exact h2
    · rw [hsu] at h3; exact h3
  unfold typeFieldsWF at htw
  exact List.all_eq_true.mp htw f hf

theorem walkStep_ok {s : GraphQLSchema} {cur : Option GraphQLType} {seg : List Char}
    (hs : schemaWF s = true) (hc : CovOpt s cur) :
    ∃ r, walkStep s cur seg = .ok r ∧ CovOpt s r := by
  cases hl : (tokens (afterLastClose seg)).getLast? with
  | none => exact ⟨cur, by simp only [walkStep, hl], hc⟩
  | some fieldName =>
    cases hcur : cur with
    | none => exact ⟨none, by simp only [walkStep, hl, hcur], by intro t ht; cases ht⟩
    | some ct =>
      have hct : InSchema s ct := hc ct hcur
      have hcov2 : CovOpt s (some ct) := by rw [← hcur]; exact hc
      cases hf : ct.fields with
      | none => exact ⟨some ct, by simp only [walkStep, hl, hcur, hf], hcov2⟩
      | some fs =>
        cases hfind : fs.find? (fun f => f.name = fieldName) with
        | none => exact ⟨some ct, by simp only [walkStep, hl, hcur, hf, hfind], hcov2⟩
        | some f =>
          have hfmem : f ∈ fs := List.mem_of_find?_eq_some hfind
          have hwf : wfChain f.type = true :=
            schemaWF_field hs hct (by rw [hf]; simpa using hfmem)
          obtain ⟨u, hu⟩ := unwrapType_ok hwf
          by_cases hn : u.name ≠ ""
          · cases hft : findTypeByName s u.name with
            | none =>
              exact ⟨some ct,
                by simp only [walkStep, hl, hcur, hf, hfind, hu, if_pos hn, hft], hcov2⟩
            | some nt =>
              refine ⟨some nt,
                by simp only [walkStep, hl, hcur, hf, hfind, hu, if_pos hn, hft], ?_⟩
              intro t ht
              cases ht
              exact Or.inl (List.mem_of_find?_eq_some hft)
          · exact ⟨some ct,
              by simp only [walkStep, hl, hcur, hf, hfind, hu, if_neg hn], hcov2⟩

theorem walkAll_ok {s : GraphQLSchema} :
    ∀ {segs : List (List Char)} {cur : Option GraphQLType},
      schemaWF s = true → CovOpt s cur →
      ∃ r, walkAll s cur segs = .ok r ∧ CovOpt s r := by
  intro segs
  induction segs with
  | nil => intro cur _ hc; exact ⟨cur, rfl, hc⟩
  | cons seg rest ih =>
    intro cur hs hc
    obtain ⟨c1, hc1, hcov1⟩ := @walkStep_ok s cur seg hs hc
    obtain ⟨r, hr, hcov⟩ := ih hs hcov1
    exact ⟨r, by simp only [walkAll, hc1, hr], hcov⟩

theorem baseScope_cov {s : GraphQLSchema} : CovOpt s (baseScope s) := by
  intro t ht
  unfold baseScope at ht
  cases h1 : s.types.find? (fun t2 => t2.name = queryTypeNameOf s) with
  | some t2 =>
    simp only [h1, Option.some.injEq] at ht
    subst ht
    exact Or.inl (List.mem_of_find?_eq_some h1)
  | none =>
    simp only [h1] at ht
    exact Or.inl (List.mem_of_find?_eq_some ht)

theorem getContextType_ok {s : GraphQLSchema} {bc : List Char}
    (hs : schemaWF s = true) :
    ∃ r, getContextType s bc = .ok r ∧ CovOpt s r := by
  rw [getContextType]
  split
  · refine ⟨s.mutationType, rfl, ?_⟩
    intro t ht
    exact Or.inr (Or.inl ht)
  · split
    · refine ⟨s.subscriptionType, rfl, ?_⟩
      intro t ht
      exact Or.inr (Or.inr ht)
    · split
      · exact ⟨none, rfl, by intro t ht; cases ht⟩
      · exact walkAll_ok hs baseScope_cov

theorem fieldSuggestions_ok {p : List Char} {fs : List GraphQLField}
    (h : ∀ f ∈ fs, wfChain f.type = true) :
    ∃ l, fieldSuggestions p fs = .ok l := by
  have hall : ∀ f ∈ fs.filter (fieldPred p), ∃ s, mkSuggestion f = .ok s := by
    intro f hf
    exact mkSuggestion_ok (h f (List.mem_of_mem_filter hf))
  obtain ⟨items, hitems⟩ := mapExcept_ok_of_all hall
  rw [fieldSuggestions, hitems]
  exact ⟨_, rfl⟩

theorem getSuggestions_ok {s : GraphQLSchema} (text : String) (pos : Nat)
    (hs : schemaWF s = true) :
    ∃ l, getSuggestions (some s) text pos = .ok l := by
  obtain ⟨r, hr, hcov⟩ := @getContextType_ok s (text.data.take pos) hs
  by_cases hz : countChar openBrace (text.data.take pos) = 0
  · exact ⟨rootSuggestions s (trimChars (lastLine (text.data.take pos))),
      by simp only [getSuggestions, hr, if_pos hz]⟩
  · cases r with
    | none => exact ⟨[], by simp only [getSuggestions, hr, if_neg hz]⟩
    | some ct =>
      cases hf : ct.fields with
      | none => exact ⟨[], by simp only [getSuggestions, hr, if_neg hz, hf]⟩
      | some fs =>
        have hwf : ∀ f ∈ fs, wfChain f.type = true := by
          intro f hfmem
          exact schemaWF_field hs (hcov ct rfl) (by rw [hf]; simpa using hfmem)
        obtain ⟨l, hl⟩ :=
          @fieldSuggestions_ok (trailingWordRun (lastLine (text.data.take pos))) fs hwf
        refine ⟨l, ?_⟩
        simp only [getSuggestions, hr, if_neg hz, hf]
        exact hl

theorem mkSuggestion_spec {f : GraphQLField} {s : Suggestion}
    (h : mkSuggestion f = .ok s) :
    s.label = f.name ∧
    s.insertText = (if fieldHasArgs f then f.name ++ "("
      else if hasComplexType f.type then f.name ++ " \x7b" else f.name) := by
  unfold mkSuggestion at h
  cases hts : getTypeString f.type with
  | error e => rw [hts] at h; exact absurd h (by simp)
  | ok ts =>
    rw [hts] at h
    simp only [Except.ok.injEq] at h
    subst h
    exact ⟨rfl, rfl⟩

/-! The claims. -/

/-- C1, counterexample: on the spec's scenario schema, resolving
`query \x7b(newline)  country(` with the cursor right after the unclosed
parenthesis returns the three `Country` field suggestions — not the empty
sequence the claim requires inside an unclosed argument list. -/
theorem c1_counterexample :
    resultLabels (getSuggestions (some scSchema) "query \x7b\n  country(" 18) =
      some ["capital", "code", "name"] ∧
    (["capital", "code", "name"] : List String) ≠ [] := by decide

/-- C1, amended: resolve does not crash inside an unclosed argument list,
but field suggestions are not suppressed there.  With no argument text
typed, the field name before `(` is treated as the selected field of the
path walk, so the fields of its resolved type are suggested; once partial
argument text is typed it becomes the last token of the walk, and (being
unknown on the outer type) leaves the outer scope in place, whose fields
are then suggested. -/
theorem c1_theorem :
    getContextType scSchema ("query \x7b\n  country(".data.take 18) =
      .ok (some scCountry) ∧
    resultLabels (getSuggestions (some scSchema) "query \x7b\n  country(" 18) =
      some ["capital", "code", "name"] ∧
    resultLabels (getSuggestions (some scSchema) "query \x7b\n  country(co" 20) =
      some ["countries", "country"] := by decide

/-- C2, counterexample: opening a selection set under the unknown field
`bogus` does not give the empty sequence — the walk keeps the outer
`Query` scope and suggests its fields. -/
theorem c2_counterexample :
    resultLabels (getSuggestions (some scSchema) "query \x7b\n  bogus \x7b\n    " 22) =
      some ["countries", "country"] ∧
    (["countries", "country"] : List String) ≠ [] := by decide

/-- C2, amended: when the last token of a brace segment is not a field of
the current scope type, or its unwrapped type name is not found in
`schema.types`, the walk keeps the previous scope for that depth (so
suggestions under an unknown field are the outer type's fields); the
resolver returns the empty sequence only when the final scope is absent or
carries no `fields` array. -/
theorem c2_theorem :
    (∀ (schema : GraphQLSchema) (ct : GraphQLType) (fs : List GraphQLField)
        (seg : List Char) (n : String),
      (tokens (afterLastClose seg)).getLast? = some n →
      ct.fields = some fs →
      fs.find? (fun f => f.name = n) = none →
      walkStep schema (some ct) seg = .ok (some ct)) ∧
    (∀ (schema : GraphQLSchema) (ct : GraphQLType) (fs : List GraphQLField)
        (seg : List Char) (n : String) (f : GraphQLField) (u : TypeRef),
      (tokens (afterLastClose seg)).getLast? = some n →
      ct.fields = some fs →
      fs.find? (fun f => f.name = n) = some f →
      unwrapType f.type = .ok u →
      findTypeByName schema u.name = none →
      walkStep schema (some ct) seg = .ok (some ct)) ∧
    (∀ (schema : GraphQLSchema) (text : String) (pos : Nat) (r : Option GraphQLType),
      countChar openBrace (text.data.take pos) ≠ 0 →
      getContextType schema (text.data.take pos) = .ok r →
      (∀ t, r = some t → t.fields = none) →
      getSuggestions (some schema) text pos = .ok []) := by
  refine ⟨?_, ?_, ?_⟩
  · intro schema ct fs seg n h1 h2 h3
    simp only [walkStep, h1, h2, h3]
  · intro schema ct fs seg n f u h1 h2 h3 h4 h5
    by_cases hn : u.name = ""
    · simp only [walkStep, h1, h2, h3, h4, hn]
      simp
    · simp only [walkStep, h1, h2, h3, h4, h5]
      simp [hn]
  · intro schema text pos r h1 h2 h3
    cases r with
    | none => simp only [getSuggestions, h2, if_neg h1]
    | some t =>
      have ht : t.fields = none := h3 t rfl
      simp only [getSuggestions, h2, if_neg h1, ht]

/-- C2, witness: the three amended branches at concrete inputs — an
unknown field name, a field type missing from `types`, and a fields-less
final scope. -/
theorem c2_witness :
    walkStep scSchema (some scQuery) "\n  bogus ".data = .ok (some scQuery) ∧
    walkStep ghSchema (some ghQuery) "\n  ghost ".data = .ok (some ghQuery) ∧
    getSuggestions (some nfSchema) "query \x7b\n  " 10 = .ok [] := by
  refine ⟨?_, ?_, ?_⟩
  · exact c2_theorem.1 scSchema scQuery scQueryFields "\n  bogus ".data "bogus"
      (by decide) (by decide) (by decide)
  · exact c2_theorem.2.1 ghSchema ghQuery
      [{ name := "ghost", description := none,
         type := .base "OBJECT" "Phantom", args := none }]
      "\n  ghost ".data "ghost"
      { name := "ghost", description := none,
        type := .base "OBJECT" "Phantom", args := none }
      (.base "OBJECT" "Phantom")
      (by decide) (by decide) (by decide) (by decide) (by decide)
  · exact c2_theorem.2.2 nfSchema "query \x7b\n  " 10
      (some { name := "Query", kind := "OBJECT", fields := none })
      (by decide) (by decide) (by intro t ht; cases ht; rfl)

/-- C3, counterexample: with a schema whose mutation root object carries
`addUser: User` and whose `User` type has field `name`, the resolver at
depth 2 under `mutation` still suggests `addUser` (the mutation root's own
field) — it never walks the selected field path to `User`. -/
theorem c3_counterexample :
    resultLabels (getSuggestions (some muSchema) "mutation \x7b\n  addUser \x7b\n    " 27) =
      some ["addUser"] ∧
    muUser.fields = some [{ name := "name", description := none,
                            type := .base "SCALAR" "String", args := none }] ∧
    (["addUser"] : List String) ≠ ["name"] := by decide

/-- C3, amended: when the pre-cursor text contains the substring
`mutation` and not `query`, `getContextType` returns `schema.mutationType`
itself at every depth — no field-path walk is performed; if that root
object is absent the resolver yields the empty sequence at any depth of at
least one.  The symmetric rule holds for `subscription` (when `mutation`
does not also occur). -/
theorem c3_theorem (schema : GraphQLSchema) (text : String) (pos : Nat) :
    (containsSeq "mutation".data (text.data.take pos) = true →
      containsSeq "query".data (text.data.take pos) = false →
      getContextType schema (text.data.take pos) = .ok schema.mutationType ∧
      (schema.mutationType = none → countChar openBrace (text.data.take pos) ≠ 0 →
        getSuggestions (some schema) text pos = .ok [])) ∧
    (containsSeq "mutation".data (text.data.take pos) = false →
      containsSeq "subscription".data (text.data.take pos) = true →
      containsSeq "query".data (text.data.take pos) = false →
      getContextType schema (text.data.take pos) = .ok schema.subscriptionType ∧
      (schema.subscriptionType = none → countChar openBrace (text.data.take pos) ≠ 0 →
        getSuggestions (some schema) text pos = .ok [])) := by
  constructor
  · intro hm hq
    have hctx : getContextType schema (text.data.take pos) = .ok schema.mutationType := by
      unfold getContextType
      rw [if_pos (by rw [hm, hq]; rfl)]
    refine ⟨hctx, ?_⟩
    intro hnone hnz
    simp only [getSuggestions, hctx, hnone, if_neg hnz]
  · intro hm hs hq
    have hctx : getContextType schema (text.data.take pos) = .ok schema.subscriptionType := by
      unfold getContextType
      rw [if_neg (by rw [hm]; simp), if_pos (by rw [hs, hq]; rfl)]
    refine ⟨hctx, ?_⟩
    intro hnone hnz
    simp only [getSuggestions, hctx, hnone, if_neg hnz]

/-- C3, witness: on the scenario schema (which declares neither mutation
nor subscription root), both operation keywords resolve to no scope and no
suggestions at depth 1. -/
theorem c3_witness :
    (getContextType scSchema ("mutation \x7b\n  ".data.take 13) =
        .ok scSchema.mutationType ∧
      getSuggestions (some scSchema) "mutation \x7b\n  " 13 = .ok []) ∧
    (getContextType scSchema ("subscription \x7b\n  ".data.take 17) =
        .ok scSchema.subscriptionType ∧
      getSuggestions (some scSchema) "subscription \x7b\n  " 17 = .ok []) := by
  constructor
  · have h := (c3_theorem scSchema "mutation \x7b\n  " 13).1 (by decide) (by decide)
    exact ⟨h.1, h.2 rfl (by decide)⟩
  · have h := (c3_theorem scSchema "subscription \x7b\n  " 17).2
      (by decide) (by decide) (by decide)
    exact ⟨h.1, h.2 rfl (by decide)⟩

/-- C7: the resolver is total — with no schema it returns the empty
suggestion sequence for every text and offset, and with any schema
satisfying the data-model TypeRef invariant (`schemaWF`: every
NON_NULL/LIST wrapper carries `ofType`) it returns some suggestion list
and never throws. -/
theorem c7_theorem (text : String) (pos : Nat) :
    getSuggestions none text pos = .ok [] ∧
    ∀ schema : GraphQLSchema, schemaWF schema = true →
      ∃ l, getSuggestions (some schema) text pos = .ok l := by
  constructor
  · rfl
  · intro schema hs
    exact getSuggestions_ok text pos hs

/-- C7, witness: the no-schema call returns the empty sequence and the
scenario schema resolves without throwing. -/
theorem c7_witness :
    getSuggestions none "query \x7b\n  " 10 = .ok [] ∧
    ∃ l, getSuggestions (some scSchema) "query \x7b\n  " 10 = .ok l := by
  have h := c7_theorem "query \x7b\n  " 10
  exact ⟨h.1, h.2 scSchema (by decide)⟩

/-- C8, counterexample: `fetchSchema` does not validate the introspection
payload — with no GraphQL errors and `__schema` equal to the empty object,
the empty object is installed as the schema (replacing the previous
`none`), although it has no `queryType` and no `types`; the claim requires
a `SchemaError` throw instead. -/
theorem c8_counterexample :
    fetchSchemaUpdate none false (some emptyRawSchema) = some emptyRawSchema ∧
    some emptyRawSchema ≠ (none : Option RawSchema) ∧
    emptyRawSchema.queryType = none ∧ emptyRawSchema.types = none := by decide

/-- C8, amended: `fetchSchema` performs no structural validation: whenever
the response has no `errors` and carries any `data.__schema` object, that
object is installed as-is (even the empty object); it throws — keeping the
previously installed schema — exactly when the response reports errors or
`data.__schema` is absent. -/
theorem c8_theorem :
    (∀ (prev : Option RawSchema) (schemaObj : Option RawSchema),
      fetchSchemaUpdate prev true schemaObj = prev) ∧
    (∀ prev : Option RawSchema, fetchSchemaUpdate prev false none = prev) ∧
    (∀ (prev : Option RawSchema) (s : RawSchema),
      fetchSchemaUpdate prev false (some s) = some s) :=
  ⟨fun _ _ => rfl, fun _ => rfl, fun _ _ => rfl⟩

/-- C9: for every chain of LIST/NON_NULL wrappers around a named type
reference (any non-wrapper kind, non-empty name), both `getTypeString` and
`renderType` produce the canonical signature mirroring the wrapping
order — LIST as brackets, NON_NULL as a trailing bang. -/
theorem c9_theorem (ws : List Wrapper) (kind name : String)
    (h1 : name ≠ "") (h2 : isWrapperKind kind = false) :
    getTypeString (applyWraps ws (.base kind name)) = .ok (mirror ws name) ∧
    renderType (applyWraps ws (.base kind name)) = .ok (mirror ws name) := by
  induction ws with
  | nil =>
    have hk : ¬kind = "NON_NULL" ∧ ¬kind = "LIST" := by
      unfold isWrapperKind at h2
      simpa using h2
    constructor
    · rw [applyWraps, mirror, getTypeString, if_neg hk.1, if_neg hk.2, if_neg h1]
    · rw [applyWraps, mirror, renderType, if_neg hk.1, if_neg hk.2, if_neg h1]
  | cons w ws ih =>
    rcases ih with ⟨ihg, ihr⟩
    cases w with
    | list =>
      constructor
      · rw [applyWraps, mirror, getTypeString,
          if_neg (by decide : ¬("LIST" : String) = "NON_NULL"), if_pos rfl, ihg]
      · rw [applyWraps, mirror, renderType,
          if_neg (by decide : ¬("LIST" : String) = "NON_NULL"), if_pos rfl, ihr]
    | nonNull =>
      constructor
      · rw [applyWraps, mirror, getTypeString, if_pos rfl, ihg]
      · rw [applyWraps, mirror, renderType, if_pos rfl, ihr]

/-- C9, witness: `NON_NULL(LIST(NON_NULL(String)))` renders as
`[String!]!` under both renderers. -/
theorem c9_witness :
    getTypeString (applyWraps [Wrapper.nonNull, Wrapper.list, Wrapper.nonNull]
      (.base "SCALAR" "String")) = .ok "[String!]!" ∧
    renderType (applyWraps [Wrapper.nonNull, Wrapper.list, Wrapper.nonNull]
      (.base "SCALAR" "String")) = .ok "[String!]!" := by
  have h := c9_theorem [Wrapper.nonNull, Wrapper.list, Wrapper.nonNull]
    "SCALAR" "String" (by decide) (by decide)
  exact h

/-- C10: whenever the text before the cursor contains no opening brace,
the resolver's output (with or without a schema) is a sublist of the three
keyword items `query`, `mutation`, `subscription` in that fixed order —
never any other entry. -/
theorem c10_theorem (schema? : Option GraphQLSchema) (text : String) (pos : Nat)
    (h : countChar openBrace (text.data.take pos) = 0) :
    ∃ l, getSuggestions schema? text pos = .ok l ∧
      (l.map (fun s => s.label)).Sublist ["query", "mutation", "subscription"] := by
  cases schema? with
  | none => exact ⟨[], rfl, by simp⟩
  | some s =>
    have hctx : ∃ r, getContextType s (text.data.take pos) = .ok r := by
      unfold getContextType
      split
      · exact ⟨s.mutationType, rfl⟩
      · split
        · exact ⟨s.subscriptionType, rfl⟩
        · first
            | exact ⟨none, by rw [if_pos h]⟩
            | exact ⟨none, rfl⟩
    obtain ⟨r, hr⟩ := hctx
    refine ⟨rootSuggestions s (trimChars (lastLine (text.data.take pos))), ?_, ?_⟩
    · simp only [getSuggestions, hr, if_pos h]
    · unfold rootSuggestions
      by_cases h1 : (lower (trimChars (lastLine (text.data.take pos)))).isPrefixOf
          "query".data <;>
        by_cases h2 : (lower (trimChars (lastLine (text.data.take pos)))).isPrefixOf
            "mutation".data && s.mutationType.isSome <;>
          by_cases h3 : (lower (trimChars (lastLine (text.data.take pos)))).isPrefixOf
              "subscription".data && s.subscriptionType.isSome <;>
            simp [h1, h2, h3, querySuggestion, mutationSuggestion,
              subscriptionSuggestion]

/-- C10, witness: an empty document with the scenario schema yields
exactly the `query` keyword item, a sublist of the fixed keyword order. -/
theorem c10_witness :
    ∃ l, getSuggestions (some scSchema) "" 0 = .ok l ∧
      (l.map (fun s => s.label)).Sublist ["query", "mutation", "subscription"] :=
  c10_theorem (some scSchema) "" 0 (by decide)

/-- C4, counterexample: a schema in the claim's family (the query type has
`countries` unwrapping to `Country`, and `Country` declares `capital`) on
which the resolver does not resolve the scope to `Country` and does not
suggest `capital`: because `Country` also declares a field literally named
`cap`, the trailing partial `cap` is itself the last field token of its
segment and is selected, moving the scope to `Cap`. -/
theorem c4_counterexample :
    baseScope advSchema = some advQuery ∧
    advQuery.fields = some [advCountriesField] ∧
    unwrapType advCountriesField.type = .ok (.base "OBJECT" "Country") ∧
    findTypeByName advSchema "Country" = some advCountry ∧
    advCountry.fields = some [advCapitalField, advCapField] ∧
    advCapitalField.name = "capital" ∧
    getContextType advSchema ("query \x7b\n  countries \x7b\n    cap".data.take 29) =
      .ok (some advCap) ∧
    advCap ≠ advCountry ∧
    resultLabels
      (getSuggestions (some advSchema) "query \x7b\n  countries \x7b\n    cap" 29) =
      some [] := by decide

/-- C4, amended: for every schema whose base query scope declares
`countries` whose unwrapped type name `Country` resolves to a type with
fields including `capital`, whose field types satisfy the TypeRef
invariant, and which declares no field literally named `cap`, resolving
`query \x7b(nl)  countries \x7b(nl)    cap` at the end resolves the scope
to that `Country` type and the suggestions include `capital` — the last
token of each brace segment (including the partial being typed) is the
field looked up at that depth. -/
theorem c4_theorem (schema : GraphQLSchema) (Q C : GraphQLType)
    (qfs cfs : List GraphQLField) (fc : GraphQLField) (u : TypeRef)
    (hbase : baseScope schema = some Q)
    (hQf : Q.fields = some qfs)
    (hfc : qfs.find? (fun f => f.name = "countries") = some fc)
    (hu : unwrapType fc.type = .ok u)
    (hun : u.name = "Country")
    (hC : findTypeByName schema "Country" = some C)
    (hCf : C.fields = some cfs)
    (hcap : cfs.find? (fun f => f.name = "cap") = none)
    (hwf : ∀ f ∈ cfs, wfChain f.type = true)
    (hcapital : ∃ f ∈ cfs, f.name = "capital") :
    getContextType schema ("query \x7b\n  countries \x7b\n    cap".data.take 29) =
      .ok (some C) ∧
    ∃ l, getSuggestions (some schema) "query \x7b\n  countries \x7b\n    cap" 29 =
        .ok l ∧
      ∃ s ∈ l, s.label = "capital" := by
  have hctx : getContextType schema
      ("query \x7b\n  countries \x7b\n    cap".data.take 29) = .ok (some C) := by
    unfold getContextType
    rw [if_neg (by decide), if_neg (by decide), if_neg (by decide)]
    have hsegs : (splitOnChar openBrace
        ("query \x7b\n  countries \x7b\n    cap".data.take 29)).drop 1 =
        ["\n  countries ".data, "\n    cap".data] := by decide
    rw [hsegs, hbase]
    have ht1 : (tokens (afterLastClose "\n  countries ".data)).getLast? =
        some "countries" := by decide
    have ht2 : (tokens (afterLastClose "\n    cap".data)).getLast? =
        some "cap" := by decide
    have hstep1 : walkStep schema (some Q) "\n  countries ".data = .ok (some C) := by
      simp only [walkStep, ht1, hQf, hfc, hu, hun]
      rw [if_pos (by decide)]
      rw [hC]
    have hstep2 : walkStep schema (some C) "\n    cap".data = .ok (some C) := by
      simp only [walkStep, ht2, hCf, hcap]
    simp only [walkAll, hstep1, hstep2]
  refine ⟨hctx, ?_⟩
  have hz : ¬countChar openBrace ("query \x7b\n  countries \x7b\n    cap".data.take 29)
      = 0 := by decide
  have hp : trailingWordRun (lastLine
      ("query \x7b\n  countries \x7b\n    cap".data.take 29)) = "cap".data := by decide
  obtain ⟨l, hl⟩ := @fieldSuggestions_ok "cap".data cfs hwf
  refine ⟨l, ?_, ?_⟩
  · simp only [getSuggestions, hctx, if_neg hz, hCf, hp]
    exact hl
  · unfold fieldSuggestions at hl
    cases hm2 : mapExcept mkSuggestion (cfs.filter (fieldPred "cap".data)) with
    | error e => rw [hm2] at hl; exact absurd hl (by simp)
    | ok items =>
      rw [hm2] at hl
      simp only [Except.ok.injEq] at hl
      obtain ⟨f0, hf0mem, hf0name⟩ := hcapital
      have hpred : fieldPred "cap".data f0 = true := by
        unfold fieldPred
        rw [hf0name]
        decide
      have hf0filter : f0 ∈ cfs.filter (fieldPred "cap".data) :=
        List.mem_filter.mpr ⟨hf0mem, hpred⟩
      obtain ⟨s, hsok, hsmem⟩ := mapExcept_mem_ok hm2 hf0filter
      refine ⟨s, ?_, ?_⟩
      · rw [← hl]
        exact mem_insertionSortB.mpr hsmem
      · rw [(mkSuggestion_spec hsok).1, hf0name]

/-- C4, witness: the scenario schema instantiates the amended claim —
scope `Country`, suggestions including `capital`. -/
theorem c4_witness :
    getContextType scSchema ("query \x7b\n  countries \x7b\n    cap".data.take 29) =
      .ok (some scCountry) ∧
    ∃ l, getSuggestions (some scSchema) "query \x7b\n  countries \x7b\n    cap" 29 =
        .ok l ∧
      ∃ s ∈ l, s.label = "capital" :=
  c4_theorem scSchema scQuery scCountry scQueryFields scCountryFields
    scCountriesField (.base "OBJECT" "Country")
    (by decide) (by decide) (by decide) (by decide) (by decide) (by decide)
    (by decide) (by decide) (by decide)
    ⟨{ name := "capital", description := none,
       type := .base "SCALAR" "String", args := none }, by decide, rfl⟩

/-- C5, counterexample: with `Query` fields `countries` and `country` and
partial `coun`, both are prefix matches and the tie falls to the label
comparison, which puts `countries` first (`i` sorts before `y`) — not
`country` before `countries` as the claim states. -/
theorem c5_counterexample :
    resultLabels (getSuggestions (some scSchema) "query \x7b\n  coun" 14) =
      some ["countries", "country"] ∧
    (["countries", "country"] : List String) ≠ ["country", "countries"] := by decide

/-- C5, amended: the in-selection suggestion list is exactly the scope's
fields whose names contain the partial case-insensitively, ordered by the
comparator `suggLE`: case-insensitive prefix matches first, ties broken by
the label comparison (code-point order on these identifiers) — so
`countries` sorts before `country`. -/
theorem c5_theorem (p : List Char) (fs : List GraphQLField) (l : List Suggestion)
    (h : fieldSuggestions p fs = .ok l) :
    l.Pairwise (fun a b => suggLE p a b = true) ∧
    (l.map (fun s => s.label)).Perm
      ((fs.filter (fieldPred p)).map (fun f => f.name)) := by
  unfold fieldSuggestions at h
  cases hm : mapExcept mkSuggestion (fs.filter (fieldPred p)) with
  | error e => rw [hm] at h; exact absurd h (by simp)
  | ok items =>
    rw [hm] at h
    simp only [Except.ok.injEq] at h
    subst h
    constructor
    · exact pairwise_insertionSortB (suggLE_total p) (suggLE_trans p) items
    · have h1 := (insertionSortB_perm (suggLE p) items).map (fun s => s.label)
      have h2 := mapExcept_labels hm
      rw [h2] at h1
      exact h1

/-- C5, witness: the concrete `coun` resolution — sorted per `suggLE` with
`countries` first, and a permutation of the filtered field names. -/
theorem c5_witness :
    ([scCountriesSugg, scCountrySugg].Pairwise
      (fun a b => suggLE "coun".data a b = true)) ∧
    (([scCountriesSugg, scCountrySugg].map (fun s => s.label)).Perm
      ((scQueryFields.filter (fieldPred "coun".data)).map (fun f => f.name))) :=
  c5_theorem "coun".data scQueryFields [scCountriesSugg, scCountrySugg] (by decide)

/-- C6, counterexample: the scenario field `countries` has no arguments
and an unwrapped OBJECT type (`[Country!]!`), yet its insert text is the
bare name `countries` — the source only honours a single wrapper layer, so
the claim's ` \x7b` suffix is missing. -/
theorem c6_counterexample :
    resultInserts (getSuggestions (some scSchema) "query \x7b\n  " 10) =
      some ["countries", "country("] ∧
    ("countries" : String) ≠ "countries \x7b" := by decide

/-- C6, amended: every produced suggestion corresponds to a field of the
scope, with insert text: the name followed by `(` whenever the field
declares at least one argument; the name followed by ` \x7b` when it is
argument-less and its type is OBJECT at the top level or a single
NON_NULL/LIST wrapper directly around an OBJECT; and the bare name
otherwise — in particular for INTERFACE/UNION types and doubly wrapped
OBJECT types. -/
theorem c6_theorem (p : List Char) (fs : List GraphQLField) (l : List Suggestion)
    (s : Suggestion) (h : fieldSuggestions p fs = .ok l) (hs : s ∈ l) :
    ∃ f, f ∈ fs ∧ s.label = f.name ∧
      s.insertText = (if fieldHasArgs f then f.name ++ "("
        else if hasComplexType f.type then f.name ++ " \x7b" else f.name) := by
  unfold fieldSuggestions at h
  cases hm : mapExcept mkSuggestion (fs.filter (fieldPred p)) with
  | error e => rw [hm] at h; exact absurd h (by simp)
  | ok items =>
    rw [hm] at h
    simp only [Except.ok.injEq] at h
    subst h
    have hsit : s ∈ items := mem_insertionSortB.mp hs
    obtain ⟨f, hfmem, hfok⟩ := mapExcept_mem_rev hm hsit
    obtain ⟨hlab, hins⟩ := mkSuggestion_spec hfok
    exact ⟨f, List.mem_of_mem_filter hfmem, hlab, hins⟩

/-- C6, witness: the `countries` item of the scenario schema instantiates
the amended rule (argument-less, doubly wrapped OBJECT, bare name). -/
theorem c6_witness :
    ∃ f, f ∈ scQueryFields ∧ scCountriesSugg.label = f.name ∧
      scCountriesSugg.insertText = (if fieldHasArgs f then f.name ++ "("
        else if hasComplexType f.type then f.name ++ " \x7b" else f.name) :=
  c6_theorem "".data scQueryFields [scCountriesSugg, scCountrySugg]
    scCountriesSugg (by decide) (by decide)

end GQL
